import Mathlib

/-!
# Verification of the WaterTAP parameter-sweep engine

A shallow embedding of `watertap/tools/parameter_sweep.py` and proofs about
its partitioner, combination builder, sample generators, evaluation loop,
status translation, interpolation masking, HDF5 round trip, and the
engine entry point's returned table.

Numeric values are modelled over `ℚ`; the IEEE NaN missing-value sentinel is
modelled as `Option ℚ = none` (every number the code manipulates is either a
finite value or the NaN sentinel; no other IEEE behaviour is exercised by the
properties proved here).
-/

namespace ParameterSweep

/-- A result-matrix entry: `some q` is a finite value, `none` models NaN. -/
abbrev RVal := Option ℚ

/-! ## Partitioner: `_divide_combinations` (numpy `array_split`)

`np.array_split(arr, W)` splits the `N = arr.length` rows into `W` sections:
`divmod(N, W) = (each, extras)`; the first `extras` sections get `each + 1`
rows and the remaining `W - extras` sections get `each` rows, taken
contiguously in order. -/

/-- Section sizes of `np.array_split` on `n` rows into `w` sections. -/
def arraySplitSizes (n w : ℕ) : List ℕ :=
  (List.range w).map (fun i => if i < n % w then n / w + 1 else n / w)

/-- Split a list into contiguous chunks of the given sizes. -/
def splitBySizes : List ℕ → List α → List (List α)
  | [], _ => []
  | s :: rest, xs => xs.take s :: splitBySizes rest (xs.drop s)

/-- `np.array_split(xs, w)`: contiguous near-equal sections. -/
def array_split (xs : List α) (w : ℕ) : List (List α) :=
  splitBySizes (arraySplitSizes xs.length w) xs

/-- `_divide_combinations`: rank `rank` keeps its own section of the split. -/
def divideCombinations (globalComboArray : List α) (rank numProcs : ℕ) : List α :=
  (array_split globalComboArray numProcs).getD rank []

/-! ## Sample generators: `LinearSample` (numpy `linspace`) -/

/-- `np.linspace(lo, hi, n)` with `endpoint=True`: `n` evenly spaced values
from `lo` to `hi` inclusive; `n = 1` yields `[lo]`, `n = 0` yields `[]`. -/
def linspace (lo hi : ℚ) (n : ℕ) : List ℚ :=
  if n = 0 then []
  else if n = 1 then [lo]
  else (List.range n).map (fun i : ℕ => lo + (i : ℚ) * (hi - lo) / ((n : ℚ) - 1))

/-- The `LinearSample` fixed-grid generator: `setup` stores the limits and
the sample count. -/
structure LinearSample where
  lowerLimit : ℚ
  upperLimit : ℚ
  numSamples : ℕ

/-- `LinearSample.sample(num_samples)` ignores its argument and returns
`np.linspace(self.lower_limit, self.upper_limit, self.num_samples)`. -/
def LinearSample.sample (s : LinearSample) (_numSamplesArg : ℕ) : List ℚ :=
  linspace s.lowerLimit s.upperLimit s.numSamples

/-! ## Combination builder: `_build_combinations`, FIXED branch

`np.meshgrid(*param_values, indexing="ij")` stacked and reshaped to
`(num_var_params, -1).T` enumerates the Cartesian product of the parameter
vectors with the first parameter varying slowest (row-major multi-index
order). -/

/-- Cartesian product of the per-parameter vectors, first parameter varying
slowest — the FIXED branch of `_build_combinations`. -/
def cartesianProduct : List (List ℚ) → List (List ℚ)
  | [] => [[]]
  | v :: rest => v.flatMap (fun x => (cartesianProduct rest).map (fun row => x :: row))

/-! ## Lemmas about the partitioner -/

theorem splitBySizes_length (ss : List ℕ) (xs : List α) :
    (splitBySizes ss xs).length = ss.length := by
  induction ss generalizing xs with
  | nil => rfl
  | cons s rest ih => simp [splitBySizes, ih]

theorem splitBySizes_flatten (ss : List ℕ) (xs : List α) :
    (splitBySizes ss xs).flatten = xs.take ss.sum := by
  induction ss generalizing xs with
  | nil => simp [splitBySizes]
  | cons s rest ih =>
    simp only [splitBySizes, List.flatten_cons, ih, List.sum_cons, List.take_add]

theorem sum_range_ite (q r w : ℕ) :
    ((List.range w).map (fun i => if i < r then q + 1 else q)).sum = w * q + min r w := by
  induction w with
  | zero => simp
  | succ w ih =>
    rw [List.sum_range_succ, ih]
    by_cases h : w < r
    · rw [if_pos h, Nat.min_eq_right h.le, Nat.min_eq_right (by omega : w + 1 ≤ r)]
      ring
    · rw [if_neg h, Nat.min_eq_left (by omega : r ≤ w), Nat.min_eq_left (by omega : r ≤ w + 1)]
      ring

theorem arraySplitSizes_length (n w : ℕ) : (arraySplitSizes n w).length = w := by
  simp [arraySplitSizes]

theorem arraySplitSizes_sum (n w : ℕ) (hw : 1 ≤ w) : (arraySplitSizes n w).sum = n := by
  have hlt : n % w < w := Nat.mod_lt _ hw
  have hdm : w * (n / w) + n % w = n := Nat.div_add_mod n w
  rw [arraySplitSizes, sum_range_ite]
  omega

theorem splitBySizes_getD_length (ss : List ℕ) (xs : List α)
    (hle : ss.sum ≤ xs.length) :
    ∀ r, r < ss.length → ((splitBySizes ss xs).getD r []).length = ss.getD r 0 := by
  induction ss generalizing xs with
  | nil => intro r hr; simp at hr
  | cons s rest ih =>
    intro r hr
    match r with
    | 0 =>
      simp only [splitBySizes, List.getD_cons_zero, List.length_take]
      simp only [List.sum_cons] at hle
      omega
    | r + 1 =>
      simp only [splitBySizes, List.getD_cons_succ]
      apply ih
      · simp only [List.sum_cons] at hle
        simp only [List.length_drop]
        omega
      · simpa using hr

theorem getD_range_map (l : List β) (d : β) :
    (List.range l.length).map (fun i => l.getD i d) = l := by
  apply List.ext_getElem
  · simp
  · intro i h1 h2
    simp only [List.getElem_map, List.getElem_range]
    exact l.getD_eq_getElem d h2

/-- Claim C1: for every row list and worker count `W ≥ 1`, `_divide_combinations`
splits the global combination array into `W` contiguous, disjoint, rank-ordered
blocks whose concatenation in rank order is exactly the original array in
original row order, and the first `N mod W` blocks have `N / W + 1` rows while
the rest have `N / W` rows. -/
theorem divide_combinations_partition (xs : List α) (w : ℕ) (hw : 1 ≤ w) :
    (array_split xs w).length = w ∧
    ((List.range w).map (fun r => divideCombinations xs r w)).flatten = xs ∧
    (∀ r, r < w → (divideCombinations xs r w).length =
      if r < xs.length % w then xs.length / w + 1 else xs.length / w) := by
  have hlen : (array_split xs w).length = w := by
    rw [array_split, splitBySizes_length, arraySplitSizes_length]
  refine ⟨hlen, ?_, ?_⟩
  · have : (List.range w).map (fun r => divideCombinations xs r w) = array_split xs w := by
      have h2 := getD_range_map (array_split xs w) ([] : List α)
      rw [hlen] at h2
      exact h2
    rw [this, array_split, splitBySizes_flatten, arraySplitSizes_sum xs.length w hw,
      List.take_length]
  · intro r hr
    have hsz : ((splitBySizes (arraySplitSizes xs.length w) xs).getD r []).length =
        (arraySplitSizes xs.length w).getD r 0 := by
      apply splitBySizes_getD_length
      · rw [arraySplitSizes_sum xs.length w hw]
      · rwa [arraySplitSizes_length]
    rw [divideCombinations, array_split, hsz, arraySplitSizes,
      List.getD_eq_getElem _ _ (by simpa using hr), List.getElem_map, List.getElem_range]

/-- Witness for Claim C1 at ten rows split across three workers. -/
theorem divide_combinations_partition_witness :
    1 ≤ 3 ∧
    (array_split [0, 1, 2, 3, 4, 5, 6, 7, 8, 9] 3).length = 3 ∧
    ((List.range 3).map (fun r => divideCombinations [0, 1, 2, 3, 4, 5, 6, 7, 8, 9] r 3)).flatten =
      [0, 1, 2, 3, 4, 5, 6, 7, 8, 9] ∧
    (∀ r, r < 3 → (divideCombinations [0, 1, 2, 3, 4, 5, 6, 7, 8, 9] r 3).length =
      if r < ([0, 1, 2, 3, 4, 5, 6, 7, 8, 9] : List ℕ).length % 3 then
        ([0, 1, 2, 3, 4, 5, 6, 7, 8, 9] : List ℕ).length / 3 + 1
      else ([0, 1, 2, 3, 4, 5, 6, 7, 8, 9] : List ℕ).length / 3) :=
  ⟨by decide, divide_combinations_partition [0, 1, 2, 3, 4, 5, 6, 7, 8, 9] 3 (by decide)⟩

/-! ## Lemmas about the combination builder -/

theorem cartesianProduct_length (vs : List (List ℚ)) :
    (cartesianProduct vs).length = (vs.map List.length).prod := by
  induction vs with
  | nil => rfl
  | cons v rest ih =>
    simp only [cartesianProduct, List.length_flatMap, List.map_cons, List.prod_cons,
      Function.comp_def, List.length_map, ih]
    rw [List.map_const', List.sum_replicate, smul_eq_mul]

theorem cartesianProduct_mem (row : List ℚ) (vs : List (List ℚ)) :
    row ∈ cartesianProduct vs ↔ List.Forall₂ (fun x v => x ∈ v) row vs := by
  induction vs generalizing row with
  | nil =>
    simp only [cartesianProduct, List.mem_singleton]
    constructor
    · rintro rfl; exact List.Forall₂.nil
    · intro h; cases h; rfl
  | cons v rest ih =>
    simp only [cartesianProduct, List.mem_flatMap, List.mem_map]
    constructor
    · rintro ⟨x, hx, r, hr, rfl⟩
      exact List.Forall₂.cons hx ((ih r).mp hr)
    · intro h
      cases h with
      | cons hx hr => exact ⟨_, hx, _, (ih _).mpr hr, rfl⟩

theorem flatMap_getElem?_const_length (l : List α) (f : α → List β) (M : ℕ)
    (hf : ∀ x, (f x).length = M) (i j : ℕ) (hi : i < l.length) (hj : j < M) :
    (l.flatMap f)[i * M + j]? = (f l[i])[j]? := by
  induction l generalizing i with
  | nil => simp at hi
  | cons a l ih =>
    match i with
    | 0 =>
      simp only [List.flatMap_cons, Nat.zero_mul, Nat.zero_add]
      rw [List.getElem?_append_left (by rw [hf a]; exact hj)]
      simp
    | i + 1 =>
      simp only [List.flatMap_cons]
      rw [List.getElem?_append_right (by rw [hf a]; nlinarith [Nat.succ_mul i M])]
      have harith : (i + 1) * M + j - (f a).length = i * M + j := by
        rw [hf a, Nat.succ_mul]; omega
      rw [harith, ih i (by simpa using hi)]
      simp

/-- Claim C2: for fixed-grid sampling the combination builder produces the full
Cartesian product of the per-parameter vectors (membership characterization),
with row count the product of the per-parameter counts, in row-major order with
the first parameter varying slowest (block-index characterization); two
parameters with counts [2,3] yield exactly the 6 unique rows in Cartesian
row-major order. -/
theorem build_combinations_fixed_cartesian :
    (∀ vs : List (List ℚ), (cartesianProduct vs).length = (vs.map List.length).prod) ∧
    (∀ (row : List ℚ) (vs : List (List ℚ)),
      row ∈ cartesianProduct vs ↔ List.Forall₂ (fun x v => x ∈ v) row vs) ∧
    (∀ (v : List ℚ) (rest : List (List ℚ)) (i j : ℕ)
      (hi : i < v.length) (hj : j < (cartesianProduct rest).length),
      (cartesianProduct (v :: rest))[i * (cartesianProduct rest).length + j]? =
        some (v[i] :: (cartesianProduct rest)[j])) ∧
    cartesianProduct [[0, 1], [2, 3, 4]] =
      [[0, 2], [0, 3], [0, 4], [1, 2], [1, 3], [1, 4]] ∧
    (cartesianProduct [[0, 1], [2, 3, 4]]).length = 2 * 3 ∧
    (cartesianProduct [[0, 1], [2, 3, 4]]).Nodup := by
  refine ⟨cartesianProduct_length, cartesianProduct_mem, ?_, by decide, by decide, by decide⟩
  intro v rest i j hi hj
  rw [show cartesianProduct (v :: rest) =
        v.flatMap (fun x => (cartesianProduct rest).map (fun row => x :: row)) from rfl]
  rw [flatMap_getElem?_const_length _ _ _ (fun x => by simp) i j hi hj]
  simp [List.getElem?_eq_getElem hj]

/-- Witness for Claim C2: the row-major block-index characterization evaluated
at row index 1·3 + 2 of the [2,3] grid. -/
theorem build_combinations_fixed_cartesian_witness :
    (cartesianProduct [[0, 1], [2, 3, 4]])[1 * (cartesianProduct [[2, 3, 4]]).length + 2]? =
      some (([0, 1] : List ℚ).get ⟨1, by decide⟩ :: (cartesianProduct [[2, 3, 4]]).get ⟨2, by decide⟩) :=
  build_combinations_fixed_cartesian.2.2.1 [0, 1] [[2, 3, 4]] 1 2 (by decide) (by decide)

/-! ## Lemmas about the fixed-grid sample generator -/

theorem getD_map_range (f : ℕ → ℚ) (n i : ℕ) (hi : i < n) :
    ((List.range n).map f).getD i 0 = f i := by
  rw [List.getD_eq_getElem _ _ (by simpa using hi), List.getElem_map, List.getElem_range]

/-- Counterexample to Claim C9 as stated: a `LinearSample` with stored count 1
yields only the lower bound, so the produced values are not inclusive of both
bounds for every count. -/
theorem linear_sample_count_one_counterexample :
    (LinearSample.mk 0 10 1).sample 5 = [0] ∧ (10 : ℚ) ∉ (LinearSample.mk 0 10 1).sample 5 := by
  refine ⟨by decide, by decide⟩

/-- Claim C9 (amended): for every pair of limits and stored count `n ≥ 2`, the
`LinearSample` generator produces exactly `n` evenly spaced values inclusive of
both bounds, ignoring the count argument passed to `sample` (a stored count of
1 yields only the lower bound); `LinearSample(0, 10, 5)` yields exactly
`[0, 5/2, 5, 15/2, 10]`. -/
theorem linear_sample_spec (lo hi : ℚ) (n : ℕ) (hn : 2 ≤ n) (m k : ℕ) :
    ((LinearSample.mk lo hi n).sample m).length = n ∧
    ((LinearSample.mk lo hi n).sample m).getD 0 0 = lo ∧
    ((LinearSample.mk lo hi n).sample m).getD (n - 1) 0 = hi ∧
    (∀ i, i + 1 < n →
      ((LinearSample.mk lo hi n).sample m).getD (i + 1) 0 -
        ((LinearSample.mk lo hi n).sample m).getD i 0 = (hi - lo) / ((n : ℚ) - 1)) ∧
    (LinearSample.mk lo hi n).sample m = (LinearSample.mk lo hi n).sample k ∧
    (LinearSample.mk 0 10 5).sample m = [0, 5 / 2, 5, 15 / 2, 10] := by
  have hne : (n : ℚ) - 1 ≠ 0 := by
    have : (2 : ℚ) ≤ (n : ℚ) := by exact_mod_cast hn
    linarith
  have hunfold : (LinearSample.mk lo hi n).sample m =
      (List.range n).map (fun i : ℕ => lo + (i : ℚ) * (hi - lo) / ((n : ℚ) - 1)) := by
    show linspace lo hi n = _
    rw [linspace, if_neg (show ¬n = 0 by omega), if_neg (show ¬n = 1 by omega)]
  refine ⟨?_, ?_, ?_, ?_, rfl, ?_⟩
  · rw [hunfold]; simp
  · rw [hunfold, getD_map_range _ _ _ (by omega)]
    simp
  · rw [hunfold, getD_map_range _ _ _ (by omega)]
    have hcast : ((n - 1 : ℕ) : ℚ) = (n : ℚ) - 1 := by
      have : 1 ≤ n := by omega
      push_cast [this]
      ring
    rw [hcast]
    field_simp
  · intro i hi
    rw [hunfold, getD_map_range _ _ _ (by omega), getD_map_range _ _ _ (by omega)]
    push_cast
    field_simp
    ring
  · show linspace 0 10 5 = _
    rw [linspace]
    norm_num [List.range_succ]

/-- Witness for Claim C9 (amended): even spacing at the [0,10] grid with count
5, evaluated between indices 1 and 2. -/
theorem linear_sample_spec_witness :
    ((LinearSample.mk (0 : ℚ) 10 5).sample 3).getD (1 + 1) 0 -
      ((LinearSample.mk (0 : ℚ) 10 5).sample 3).getD 1 0 = (10 - 0) / ((5 : ℚ) - 1) :=
  (linear_sample_spec 0 10 5 (by decide) 3 7).2.2.2.1 1 (by decide)

/-! ## Evaluation loop: `_do_param_sweep`

The solver is opaque: each call to `optimize_function` yields a result whose
`pyo.check_optimal_termination` verdict, termination-condition name, and
tracked output values (`[pyo.value(outcome) for outcome in outputs.values()]`)
we record in an `AttemptResult`. A `CaseOracle` gives the outcome of the first
attempt at a case and the outcome of the attempt made after
`reinitialize_function` (consulted only when the retry branch runs). -/

/-- Outcome of one `optimize_function` call. -/
structure AttemptResult where
  isOptimal : Bool
  termName : String
  outputs : List ℚ

/-- Opaque solver behaviour at one case: first attempt and post-reinitialize
attempt. -/
structure CaseOracle where
  first : AttemptResult
  second : AttemptResult

/-- The `reinitialize_before_sweep` flag and whether `reinitialize_function`
is supplied (not `None`). -/
structure SweepConfig where
  reinitBeforeSweep : Bool
  hasReinitFn : Bool

/-- One iteration of the `_do_param_sweep` loop body: the recorded result row
(width `nOut`, `none` = NaN), the termination-status string appended for the
case, and the number of `optimize_function` and `reinitialize_function` calls
made; it is the `ValueError` when `reinitialize_before_sweep` is enabled
without a supplied hook. -/
def runCase (nOut : ℕ) (cfg : SweepConfig) (c : CaseOracle) :
    Except String (List RVal × String × ℕ × ℕ) :=
  if cfg.reinitBeforeSweep ∧ ¬cfg.hasReinitFn then
    .error "Reinitialization function was not specified. The model will not be reinitialized."
  else
    let preReinit : ℕ := if cfg.reinitBeforeSweep then 1 else 0
    let fstRow : List RVal :=
      if c.first.isOptimal then c.first.outputs.map some else List.replicate nOut none
    if ¬cfg.reinitBeforeSweep ∧ ¬c.first.isOptimal ∧ cfg.hasReinitFn then
      .ok ((if c.second.isOptimal then c.second.outputs.map some else fstRow),
        c.second.termName, 2, preReinit + 1)
    else
      .ok (fstRow, c.first.termName, 1, preReinit)

/-- The recorded result row of one case (characterization of `runCase`). -/
def caseRow (nOut : ℕ) (cfg : SweepConfig) (c : CaseOracle) : List RVal :=
  let fstRow : List RVal :=
    if c.first.isOptimal then c.first.outputs.map some else List.replicate nOut none
  if ¬cfg.reinitBeforeSweep ∧ ¬c.first.isOptimal ∧ cfg.hasReinitFn then
    (if c.second.isOptimal then c.second.outputs.map some else fstRow)
  else fstRow

/-- The recorded status string of one case (characterization of `runCase`). -/
def caseStatus (cfg : SweepConfig) (c : CaseOracle) : String :=
  if ¬cfg.reinitBeforeSweep ∧ ¬c.first.isOptimal ∧ cfg.hasReinitFn then
    c.second.termName
  else c.first.termName

/-- The case loop of `_do_param_sweep`, in row order. -/
def runCases (nOut : ℕ) (cfg : SweepConfig) :
    List CaseOracle → Except String (List (List RVal) × List String)
  | [] => .ok ([], [])
  | c :: rest =>
    match runCase nOut cfg c with
    | .error e => .error e
    | .ok (row, st, _, _) =>
      match runCases nOut cfg rest with
      | .error e => .error e
      | .ok (rows, sts) => .ok (row :: rows, st :: sts)

/-- `_do_param_sweep`: local result matrix, local status list, and
`fail_counter = local_num_cases − local_solve_status_list.count("optimal")`. -/
def doParamSweep (nOut : ℕ) (cfg : SweepConfig) (cases : List CaseOracle) :
    Except String (List (List RVal) × List String × ℕ) :=
  match runCases nOut cfg cases with
  | .error e => .error e
  | .ok (rows, sts) => .ok (rows, sts, cases.length - sts.count "optimal")

/-! ## Lemmas about the evaluation loop -/

theorem runCase_eq (nOut : ℕ) (cfg : SweepConfig) (c : CaseOracle)
    (hcfg : ¬(cfg.reinitBeforeSweep ∧ ¬cfg.hasReinitFn)) :
    ∃ a b, runCase nOut cfg c = .ok (caseRow nOut cfg c, caseStatus cfg c, a, b) := by
  rw [runCase, if_neg hcfg, caseRow, caseStatus]
  by_cases h : ¬cfg.reinitBeforeSweep ∧ ¬c.first.isOptimal ∧ cfg.hasReinitFn
  · rw [if_pos h, if_pos h, if_pos h]
    exact ⟨_, _, rfl⟩
  · rw [if_neg h, if_neg h, if_neg h]
    exact ⟨_, _, rfl⟩

theorem runCases_eq (nOut : ℕ) (cfg : SweepConfig) (cases : List CaseOracle)
    (hcfg : ¬(cfg.reinitBeforeSweep ∧ ¬cfg.hasReinitFn)) :
    runCases nOut cfg cases =
      .ok (cases.map (caseRow nOut cfg), cases.map (caseStatus cfg)) := by
  induction cases with
  | nil => rfl
  | cons c rest ih =>
    obtain ⟨a, b, hc⟩ := runCase_eq nOut cfg c hcfg
    rw [runCases, hc, ih]
    simp

theorem doParamSweep_eq (nOut : ℕ) (cfg : SweepConfig) (cases : List CaseOracle)
    (hcfg : ¬(cfg.reinitBeforeSweep ∧ ¬cfg.hasReinitFn)) :
    doParamSweep nOut cfg cases =
      .ok (cases.map (caseRow nOut cfg), cases.map (caseStatus cfg),
        cases.length - (cases.map (caseStatus cfg)).count "optimal") := by
  rw [doParamSweep, runCases_eq nOut cfg cases hcfg]

theorem getD_map (f : α → β) (l : List α) (k : ℕ) (hk : k < l.length) (d : β) :
    (l.map f).getD k d = f (l.get ⟨k, hk⟩) := by
  rw [List.getD_eq_getElem _ _ (by simpa using hk), List.getElem_map]
  rfl

/-- Claim C3: with no reinitialize hook, a case whose evaluation is non-optimal
records the NaN sentinel for every tracked output and its termination status
string; the loop never aborts, processes every case (row and status counts
equal the local case count), and `fail_counter` is the local case count minus
the number of "optimal" statuses. -/
theorem sweep_failure_isolation (nOut : ℕ) (cases : List CaseOracle) (k : ℕ)
    (hk : k < cases.length) (hfail : (cases.get ⟨k, hk⟩).first.isOptimal = false) :
    ∃ rows sts,
      doParamSweep nOut ⟨false, false⟩ cases =
        .ok (rows, sts, cases.length - sts.count "optimal") ∧
      rows.length = cases.length ∧
      sts.length = cases.length ∧
      rows.getD k [] = List.replicate nOut none ∧
      sts.getD k "" = (cases.get ⟨k, hk⟩).first.termName := by
  refine ⟨cases.map (caseRow nOut ⟨false, false⟩), cases.map (caseStatus ⟨false, false⟩),
    doParamSweep_eq nOut ⟨false, false⟩ cases (by simp), by simp, by simp, ?_, ?_⟩
  · rw [getD_map _ _ _ hk, caseRow]
    simp only [List.get_eq_getElem] at hfail
    simp [hfail]
  · rw [getD_map _ _ _ hk, caseStatus]
    simp

/-- Witness for Claim C3: two cases, the second non-optimal with status
"infeasible"; tracked outputs width 2. -/
theorem sweep_failure_isolation_witness :
    ∃ rows sts,
      doParamSweep 2 ⟨false, false⟩
          [⟨⟨true, "optimal", [5, 6]⟩, ⟨true, "optimal", [5, 6]⟩⟩,
           ⟨⟨false, "infeasible", [7, 8]⟩, ⟨true, "optimal", [7, 8]⟩⟩] =
        .ok (rows, sts, 2 - sts.count "optimal") ∧
      rows.length = 2 ∧
      sts.length = 2 ∧
      rows.getD 1 [] = List.replicate 2 none ∧
      sts.getD 1 "" =
        (([⟨⟨true, "optimal", [5, 6]⟩, ⟨true, "optimal", [5, 6]⟩⟩,
           ⟨⟨false, "infeasible", [7, 8]⟩, ⟨true, "optimal", [7, 8]⟩⟩] :
          List CaseOracle).get ⟨1, by decide⟩).first.termName :=
  sweep_failure_isolation 2 _ 1 (by decide) (by decide)

/-- Claim C4: if the first attempt at a case is non-optimal,
`reinitialize_before_sweep` is false, and a reinitialize hook exists, the loop
calls the hook once and `optimize_function` exactly once more (two optimize
calls, one reinitialize call), overwrites the recorded outputs only if the
second attempt is optimal, and records the last attempt's status string; if
`reinitialize_before_sweep` is true and the attempt failed, only one optimize
call is made (no retry) and the recorded status is that of the single attempt
run. -/
theorem sweep_retry_rule (nOut : ℕ) (c : CaseOracle) :
    (c.first.isOptimal = false →
      runCase nOut ⟨false, true⟩ c =
        .ok ((if c.second.isOptimal then c.second.outputs.map some
              else List.replicate nOut none),
          c.second.termName, 2, 1)) ∧
    (c.first.isOptimal = false →
      runCase nOut ⟨true, true⟩ c =
        .ok (List.replicate nOut none, c.first.termName, 1, 1)) := by
  constructor
  · intro hfail
    rw [runCase, if_neg (by simp)]
    simp [hfail]
  · intro hfail
    rw [runCase, if_neg (by simp)]
    simp [hfail]

/-- Witness for Claim C4: a failed first attempt with an optimal retry under
both settings of `reinitialize_before_sweep`. -/
theorem sweep_retry_rule_witness :
    runCase 2 ⟨false, true⟩ ⟨⟨false, "infeasible", [1, 2]⟩, ⟨true, "optimal", [3, 4]⟩⟩ =
      .ok ((if (AttemptResult.mk true "optimal" [3, 4]).isOptimal then
              ([3, 4] : List ℚ).map some
            else List.replicate 2 none),
        "optimal", 2, 1) ∧
    runCase 2 ⟨true, true⟩ ⟨⟨false, "infeasible", [1, 2]⟩, ⟨true, "optimal", [3, 4]⟩⟩ =
      .ok (List.replicate 2 none, "infeasible", 1, 1) :=
  ⟨(sweep_retry_rule 2 ⟨⟨false, "infeasible", [1, 2]⟩, ⟨true, "optimal", [3, 4]⟩⟩).1 rfl,
   (sweep_retry_rule 2 ⟨⟨false, "infeasible", [1, 2]⟩, ⟨true, "optimal", [3, 4]⟩⟩).2 rfl⟩

/-! ## Status translation: `TerminationConditionMapping` and
`_numeric_termination_condition_translation` -/

/-- Modelled from the spec: the closed enumeration of known termination
statuses is taken from the external solver library
(`pyomo.opt.TerminationCondition`), which is not part of this repository; it
is modelled as the fixed list of enum member names, duplicate-free because
Python `Enum` members are unique. The mapping and translation below are
translated from the source. -/
def terminationConditions : List String :=
  ["unknown", "maxTimeLimit", "maxIterations", "minFunctionValue",
   "minStepLength", "globallyOptimal", "locallyOptimal", "feasible", "optimal",
   "maxEvaluations", "other", "unbounded", "infeasible",
   "infeasibleOrUnbounded", "invalidProblem", "intermediateNonInteger",
   "noSolution", "solverFailure", "internalSolverError", "error",
   "userInterrupt", "resourceInterrupt", "licensingProblems"]

/-- `str_to_int_mapping = {condition: idx for idx, condition in enumerate(...)}`:
a known status maps to its enumeration index. -/
def str_to_int_mapping (s : String) : Option ℕ :=
  if s ∈ terminationConditions then some (terminationConditions.indexOf s) else none

/-- `int_to_str_mapping = {idx: condition for idx, condition in enumerate(...)}`:
an in-range code maps to its status. -/
def int_to_str_mapping (i : ℕ) : Option String :=
  terminationConditions[i]?

/-- Input of `_numeric_termination_condition_translation`: a status string or
a (numpy) integer code. -/
inductive TCInput
  | str (s : String)
  | int (i : ℕ)

/-- Output of `_numeric_termination_condition_translation`. -/
inductive TCOutput
  | int (i : ℕ)
  | str (s : String)
deriving DecidableEq

/-- `_numeric_termination_condition_translation`: translate a known status
string to its integer code, or a known integer code back to its status
string; raise `ValueError` on anything outside the known enumerated set. -/
def numericTCTranslation : TCInput → Except String TCOutput
  | .str s =>
    match str_to_int_mapping s with
    | some i => .ok (.int i)
    | none => .error "Pyomo termination condition value not found in known list"
  | .int i =>
    match int_to_str_mapping i with
    | some s => .ok (.str s)
    | none => .error "Pyomo termination condition value not found in known list"

theorem terminationConditions_nodup : terminationConditions.Nodup := by decide

/-- Claim C5: the status/integer mapping is a total bijection over the known
termination statuses — every known status string round-trips through its
integer code, every in-range code round-trips through its status string, and
any string or integer code outside the enumerated set raises the `ValueError`
instead of returning a value. -/
theorem numericTCTranslation_bijection :
    (∀ s ∈ terminationConditions,
      numericTCTranslation (.str s) = .ok (.int (terminationConditions.indexOf s)) ∧
      numericTCTranslation (.int (terminationConditions.indexOf s)) = .ok (.str s)) ∧
    (∀ i, i < terminationConditions.length →
      ∀ hi : i < terminationConditions.length,
      numericTCTranslation (.int i) = .ok (.str (terminationConditions.get ⟨i, hi⟩)) ∧
      numericTCTranslation (.str (terminationConditions.get ⟨i, hi⟩)) = .ok (.int i)) ∧
    (∀ s, s ∉ terminationConditions →
      numericTCTranslation (.str s) =
        .error "Pyomo termination condition value not found in known list") ∧
    (∀ i, terminationConditions.length ≤ i →
      numericTCTranslation (.int i) =
        .error "Pyomo termination condition value not found in known list") := by
  refine ⟨?_, ?_, ?_, ?_⟩
  · intro s hs
    have hlt : terminationConditions.indexOf s < terminationConditions.length :=
      List.indexOf_lt_length.mpr hs
    constructor
    · rw [numericTCTranslation, str_to_int_mapping, if_pos hs]
    · rw [numericTCTranslation, int_to_str_mapping,
        List.getElem?_eq_getElem hlt, List.getElem_indexOf hlt]
  · intro i _ hi
    have hmem : terminationConditions.get ⟨i, hi⟩ ∈ terminationConditions :=
      List.get_mem _ _ hi
    constructor
    · rw [numericTCTranslation, int_to_str_mapping, List.getElem?_eq_getElem hi]
      rfl
    · rw [numericTCTranslation, str_to_int_mapping, if_pos hmem]
      have : List.indexOf (terminationConditions.get ⟨i, hi⟩) terminationConditions = i := by
        have h2 := List.indexOf_getElem terminationConditions_nodup i hi
        simpa using h2
      rw [this]
  · intro s hs
    rw [numericTCTranslation, str_to_int_mapping, if_neg hs]
  · intro i hi
    rw [numericTCTranslation, int_to_str_mapping, List.getElem?_eq_none hi]

/-- Witness for Claim C5: the status "optimal" round-trips through its code,
and the unknown status "bogus" raises the error. -/
theorem numericTCTranslation_bijection_witness :
    (numericTCTranslation (.str "optimal") =
        .ok (.int (terminationConditions.indexOf "optimal")) ∧
      numericTCTranslation (.int (terminationConditions.indexOf "optimal")) =
        .ok (.str "optimal")) ∧
    numericTCTranslation (.str "bogus") =
      .error "Pyomo termination condition value not found in known list" :=
  ⟨numericTCTranslation_bijection.1 "optimal" (by decide),
   numericTCTranslation_bijection.2.2.1 "bogus" (by decide)⟩

/-! ## Output skeleton builder: `_create_component_output_skeleton` -/

/-- A pyomo component as seen by the skeleton builder: presence of the `lb`,
`ub` and `get_units` attributes, the bound values (`none` models Python
`None`), and the unit object's name when `get_units()` is not `None`. -/
structure Component where
  hasLb : Bool
  lb : Option ℚ
  hasUb : Bool
  ub : Option ℚ
  hasGetUnits : Bool
  unitsName : Option String

/-- The leaf dictionary built for one component; an outer `none` means the
key is absent from the dictionary. -/
structure CompDict where
  value : List ℚ
  lowerBound : Option (Option ℚ)
  upperBound : Option (Option ℚ)
  units : Option String
deriving DecidableEq

/-- `_create_component_output_skeleton`, line for line. Note that the source
stores `component.lb` under the `"upper bound"` key (guarded by
`hasattr(component, 'ub')`). -/
def createComponentOutputSkeleton (c : Component) (numSamples : ℕ) : CompDict :=
  { value := List.replicate numSamples 0
    lowerBound := if c.hasLb then some c.lb else none
    upperBound := if c.hasUb then some c.lb else none
    units :=
      if c.hasGetUnits then
        some (match c.unitsName with
          | some u => u
          | none => "non-dimensional")
      else none }

/-- Claim C6 is violated by the source: the skeleton stores `component.lb`
under the `"upper bound"` key, contradicting the key's own name and its
`hasattr(component, 'ub')` guard. At a component with lower bound 0 and upper
bound 1 the recorded "upper bound" is 0, not the component's upper bound 1;
the lower-bound and unit-string parts behave as the claim states. -/
theorem create_component_skeleton_upper_bound_bug :
    (createComponentOutputSkeleton ⟨true, some 0, true, some 1, true, some "m"⟩ 3).upperBound =
      some (some 0) ∧
    (Component.mk true (some 0) true (some 1) true (some "m")).ub = some 1 ∧
    (some (some (0 : ℚ)) : Option (Option ℚ)) ≠ some (some 1) ∧
    (createComponentOutputSkeleton ⟨true, some 0, true, some 1, true, some "m"⟩ 3).lowerBound =
      some (some 0) ∧
    (createComponentOutputSkeleton ⟨true, some 0, true, some 1, true, some "m"⟩ 3).units =
      some "m" ∧
    (createComponentOutputSkeleton ⟨true, some 0, true, some 1, true, none⟩ 3).units =
      some "non-dimensional" ∧
    (createComponentOutputSkeleton ⟨true, some 0, true, some 1, false, none⟩ 3).units = none :=
  ⟨rfl, rfl, by decide, rfl, rfl, rfl, rfl⟩

/-! ## Interpolator: `_interp_nan_values` -/

/-- Column `k` of a result matrix. -/
def column (m : List (List RVal)) (k : ℕ) : List RVal :=
  m.map (fun row => row.getD k none)

/-- The validity mask `np.isfinite(global_results[:, 0])`. -/
def finiteMask (globalResults : List (List RVal)) : List Bool :=
  globalResults.map (fun row => (row.getD 0 none).isSome)

/-- numpy boolean-mask selection `xs[mask]`. -/
def maskSelect (mask : List Bool) (xs : List α) : List α :=
  ((mask.zip xs).filter (fun p => p.1)).map (fun p => p.2)

/-- `_interp_nan_values`, with the scattered-data interpolation call
`griddata(x0, y0, global_values, method='linear', rescale=True)` treated as an
opaque kernel `gd` producing one estimate per row of `global_values`. Row `i`
of the cleaned copy keeps the original row when the mask holds and otherwise
takes column `k` of `~mask` rows from the interpolated column `yi k`. -/
def interpNanValues (gd : List (List ℚ) → List RVal → List (List ℚ) → List RVal)
    (globalValues : List (List ℚ)) (globalResults : List (List RVal)) :
    List (List RVal) :=
  let mask := finiteMask globalResults
  let x0 := maskSelect mask globalValues
  let nOuts := (globalResults.headD []).length
  let yi := fun k => gd x0 (maskSelect mask (column globalResults k)) globalValues
  (List.range globalResults.length).map (fun i =>
    if mask.getD i false then globalResults.getD i []
    else (List.range nOuts).map (fun k => (yi k).getD i none))

/-- Claim C7: the interpolator builds its validity mask from rows whose first
output column is finite and overwrites only invalid rows: for every
interpolation kernel `gd` and every row whose first output entry is finite,
the cleaned matrix keeps that row of the input result matrix unchanged (and
the row count is preserved). -/
theorem interp_nan_values_preserves_valid_rows
    (gd : List (List ℚ) → List RVal → List (List ℚ) → List RVal)
    (globalValues : List (List ℚ)) (globalResults : List (List RVal))
    (i : ℕ) (hi : i < globalResults.length)
    (hfin : ((globalResults.get ⟨i, hi⟩).getD 0 none).isSome = true) :
    (interpNanValues gd globalValues globalResults).length = globalResults.length ∧
    (interpNanValues gd globalValues globalResults).getD i [] =
      globalResults.getD i [] := by
  constructor
  · simp [interpNanValues]
  · rw [interpNanValues]
    rw [List.getD_eq_getElem _ _ (by simpa using hi), List.getElem_map, List.getElem_range]
    have hmask : (finiteMask globalResults).getD i false = true := by
      rw [finiteMask, getD_map _ _ _ hi]
      exact hfin
    rw [if_pos hmask]

/-- Witness for Claim C7: a constant interpolation kernel, three rows with the
middle row invalid; the first (valid) row is untouched. -/
theorem interp_nan_values_preserves_valid_rows_witness :
    (interpNanValues (fun _ _ vals => vals.map (fun _ => some 99))
        [[0], [1], [2]] [[some 1], [none], [some 3]]).length = 3 ∧
    (interpNanValues (fun _ _ vals => vals.map (fun _ => some 99))
        [[0], [1], [2]] [[some 1], [none], [some 3]]).getD 0 [] =
      ([[some 1], [none], [some 3]] : List (List RVal)).getD 0 [] :=
  interp_nan_values_preserves_valid_rows _ [[0], [1], [2]]
    [[some 1], [none], [some 3]] 0 (by decide) (by decide)

/-! ## Persistence of the flat table and the engine entry point:
`_save_results` and `parameter_sweep` -/

/-- `np.hstack((a, b))` on matching row counts: rows concatenated pairwise. -/
def hstack (a b : List (List RVal)) : List (List RVal) :=
  a.zipWith (· ++ ·) b

/-- An input-value matrix lifted to `RVal` entries (input values are finite). -/
def finMatrix (m : List (List ℚ)) : List (List RVal) :=
  m.map (fun row => row.map some)

/-- What `_save_results` writes and returns on the coordinator. -/
structure SaveOutcome where
  returned : List (List RVal)
  csvWritten : Option (List (List RVal))
  interpWritten : Option (List (List RVal))

/-- `_save_results`: computes `global_save_data = np.hstack((global_values,
global_results))`, writes it to the csv results file when a path was given,
and — when interpolation is enabled and a path was given — additionally writes
`np.hstack((global_values, global_results_clean))` to the sibling
`interpolated_*` file; `global_save_data` is what the function returns. -/
def saveResults (gd : List (List ℚ) → List RVal → List (List ℚ) → List RVal)
    (globalValues : List (List ℚ)) (globalResults : List (List RVal))
    (csvFileGiven interpolateNanOutputs : Bool) : SaveOutcome :=
  let globalSaveData := hstack (finMatrix globalValues) globalResults
  { returned := globalSaveData
    csvWritten := if csvFileGiven then some globalSaveData else none
    interpWritten :=
      if csvFileGiven ∧ interpolateNanOutputs then
        some (hstack (finMatrix globalValues)
          (interpNanValues gd globalValues globalResults))
      else none }

/-- The engine entry point `parameter_sweep` in the serial case
(`num_procs = 1`), fixed-grid sampling: build combinations, take rank 0's
chunk, run the evaluation loop, aggregate (the identity copy for one worker),
save, and return the saved table. -/
def parameterSweepSerial (gd : List (List ℚ) → List RVal → List (List ℚ) → List RVal)
    (paramValues : List (List ℚ)) (nOut : ℕ) (cfg : SweepConfig)
    (oracle : ℕ → CaseOracle) (csvFileGiven interp : Bool) :
    Except String (List (List RVal)) :=
  let globalValues := cartesianProduct paramValues
  let localValues := divideCombinations globalValues 0 1
  match doParamSweep nOut cfg ((List.range localValues.length).map oracle) with
  | .error e => .error e
  | .ok (localResults, _, _) =>
    .ok (saveResults gd globalValues localResults csvFileGiven interp).returned

theorem getD_append_right (l₁ l₂ : List α) (k : ℕ) (d : α) :
    (l₁ ++ l₂).getD (l₁.length + k) d = l₂.getD k d := by
  rw [List.getD_eq_getElem?_getD, List.getD_eq_getElem?_getD,
    List.getElem?_append_right (Nat.le_add_right _ _)]
  congr 2
  omega

/-- Claim C10: the table returned by the engine entry point is always the
horizontal concatenation of the global input array with the raw
(un-interpolated) global result matrix: the returned table does not depend on
the interpolate flag; when enabled, interpolated values are written only to
the sibling interpolated file while the returned and csv-written tables stay
raw; and every NaN entry of the raw result matrix is still the NaN sentinel in
the returned table's corresponding row. -/
theorem parameter_sweep_returns_raw_table
    (gd : List (List ℚ) → List RVal → List (List ℚ) → List RVal)
    (paramValues : List (List ℚ)) (nOut : ℕ) (cfg : SweepConfig)
    (oracle : ℕ → CaseOracle) (csvFileGiven : Bool)
    (hcfg : ¬(cfg.reinitBeforeSweep ∧ ¬cfg.hasReinitFn)) :
    (∀ i₁ i₂ : Bool,
      parameterSweepSerial gd paramValues nOut cfg oracle csvFileGiven i₁ =
        parameterSweepSerial gd paramValues nOut cfg oracle csvFileGiven i₂) ∧
    (∀ interp : Bool, ∃ rows sts fc,
      doParamSweep nOut cfg
          ((List.range (divideCombinations (cartesianProduct paramValues) 0 1).length).map
            oracle) = .ok (rows, sts, fc) ∧
      parameterSweepSerial gd paramValues nOut cfg oracle csvFileGiven interp =
        .ok (hstack (finMatrix (cartesianProduct paramValues)) rows)) ∧
    (∀ (gv : List (List ℚ)) (gr : List (List RVal)) (interp : Bool),
      (saveResults gd gv gr csvFileGiven interp).returned = hstack (finMatrix gv) gr ∧
      (saveResults gd gv gr true true).interpWritten =
        some (hstack (finMatrix gv) (interpNanValues gd gv gr)) ∧
      (saveResults gd gv gr true true).csvWritten = some (hstack (finMatrix gv) gr)) ∧
    (∀ (a b : List (List RVal)) (i k : ℕ), i < a.length → i < b.length →
      (b.getD i []).getD k (some 0) = none →
      ((hstack a b).getD i []).getD ((a.getD i []).length + k) (some 0) = none) := by
  refine ⟨?_, ?_, ?_, ?_⟩
  · intro i₁ i₂
    rfl
  · intro interp
    refine ⟨_, _, _, doParamSweep_eq nOut cfg _ hcfg, ?_⟩
    rw [parameterSweepSerial]
    rw [doParamSweep_eq nOut cfg _ hcfg]
    rfl
  · intro gv gr interp
    exact ⟨rfl, by simp [saveResults], by simp [saveResults]⟩
  · intro a b i k hia hib hnan
    have hlen : i < (hstack a b).length := by
      simp only [hstack, List.length_zipWith]
      omega
    have hrow : (hstack a b).getD i [] = a.getD i [] ++ b.getD i [] := by
      rw [List.getD_eq_getElem _ _ hlen]
      simp only [hstack, List.getElem_zipWith]
      rw [List.getD_eq_getElem _ _ hia, List.getD_eq_getElem _ _ hib]
    rw [hrow, getD_append_right]
    exact hnan

/-- Witness for Claim C10: a two-parameter grid with one failing case; the
returned table is the raw hstack and the failed entry stays the sentinel. -/
theorem parameter_sweep_returns_raw_table_witness :
    ∃ rows sts fc,
      doParamSweep 1 ⟨false, false⟩
          ((List.range (divideCombinations (cartesianProduct [[0, 1]]) 0 1).length).map
            (fun _ => ⟨⟨false, "infeasible", [7]⟩, ⟨false, "infeasible", [7]⟩⟩)) =
        .ok (rows, sts, fc) ∧
      parameterSweepSerial (fun _ _ vals => vals.map (fun _ => some 99)) [[0, 1]] 1
          ⟨false, false⟩ (fun _ => ⟨⟨false, "infeasible", [7]⟩, ⟨false, "infeasible", [7]⟩⟩)
          true true =
        .ok (hstack (finMatrix (cartesianProduct [[0, 1]])) rows) :=
  (parameter_sweep_returns_raw_table (fun _ _ vals => vals.map (fun _ => some 99))
    [[0, 1]] 1 ⟨false, false⟩
    (fun _ => ⟨⟨false, "infeasible", [7]⟩, ⟨false, "infeasible", [7]⟩⟩) true
    (by simp)).2.1 true

/-! ## Hierarchical persistence: `_write_output_to_h5` / `_read_output_h5`

The HDF5 file is modelled as the group/dataset tree the source creates: one
top-level group per output-dictionary key; a non-status group holds one
subgroup per leaf with one dataset per metadata entry; the "solve_status"
group holds a single string-array dataset named after the key. h5py stores
Python strings as bytes and returns bytes on read; the byte encoding is
modelled by the `bstr`/`bstrArr` constructors and utf-8 decoding by the
transition to the decoded `str` form (lossless for the strings involved).
Both writer and reader branch on the key name `"solve_status"` alone, exactly
as the source does. -/

/-- A Python value at a leaf of the output dictionary: a value array, a bound
scalar, Python `None` (an absent bound), or a unit string. -/
inductive LeafVal
  | numArr (xs : List RVal)
  | num (x : ℚ)
  | noneV
  | str (s : String)
deriving DecidableEq

/-- One leaf: metadata name to stored value. -/
abbrev LeafDict := List (String × LeafVal)

/-- One top-level group: leaf name to leaf dictionary. -/
abbrev GroupDict := List (String × LeafDict)

/-- A top-level value of the output dictionary. -/
inductive PyTop
  | dict (g : GroupDict)
  | strList (ss : List String)
deriving DecidableEq

/-- The output dictionary: top-level key to value. -/
abbrev OutputDict := List (String × PyTop)

/-- A stored HDF5 dataset. -/
inductive H5Data
  | scalar (x : ℚ)
  | arr (xs : List RVal)
  | bstr (s : String)
  | bstrArr (ss : List String)
  | nullDs
deriving DecidableEq

/-- A top-level HDF5 group as the writer lays it out: nested subgroups of
datasets, or a single named dataset (the solve-status case). -/
inductive H5Group
  | sub (g : List (String × List (String × H5Data)))
  | ds (dsName : String) (d : H5Data)
deriving DecidableEq

/-- The written file: top-level group name to group. -/
abbrev H5File := List (String × H5Group)

/-- `np.finfo('d').min`, the sentinel replacing an absent lower bound. -/
def npFinfoMin : ℚ := -(2 ^ 1024 - 2 ^ 971)

/-- `np.finfo('d').max`, the sentinel replacing an absent upper bound. -/
def npFinfoMax : ℚ := 2 ^ 1024 - 2 ^ 971

/-- One dataset written for the leaf entry `(subsubkey, v)`: a `None` bound
becomes the representable double min/max; everything else is stored as-is
(strings as bytes). -/
def writeLeafEntry (subsubkey : String) (v : LeafVal) : H5Data :=
  if subsubkey = "lower bound" ∧ v = .noneV then .scalar npFinfoMin
  else if subsubkey = "upper bound" ∧ v = .noneV then .scalar npFinfoMax
  else
    match v with
    | .numArr xs => .arr xs
    | .num x => .scalar x
    | .noneV => .nullDs
    | .str s => .bstr s

/-- The group body of a non-status entry. The writer iterates `.items()` of
the value; on a key/value shape mismatch (a status list under a non-status
key) Python would raise, modelled by the empty group. -/
def groupOf : PyTop → GroupDict
  | .dict g => g
  | .strList _ => []

/-- The status list of the "solve_status" entry; mismatch as in `groupOf`. -/
def statusOf : PyTop → List String
  | .strList ss => ss
  | .dict _ => []

/-- `_write_output_to_h5`: one group per key; non-status keys get a subgroup
per leaf with one dataset per metadata entry; the "solve_status" key gets a
single dataset named after the key holding the status strings. -/
def writeOutputToH5 (d : OutputDict) : H5File :=
  d.map (fun kv =>
    if kv.1 ≠ "solve_status" then
      (kv.1, H5Group.sub ((groupOf kv.2).map (fun sk =>
        (sk.1, sk.2.map (fun ssk => (ssk.1, writeLeafEntry ssk.1 ssk.2))))))
    else
      (kv.1, H5Group.ds kv.1 (.bstrArr (statusOf kv.2))))

/-- A value as `_read_output_h5` returns it. -/
inductive ReadVal
  | num (x : ℚ)
  | arr (xs : List RVal)
  | raw (s : String)
  | str (s : String)
  | nullV
  | decodeErr
deriving DecidableEq

/-- Reading one dataset back: only the "units" entry is utf-8 decoded
(decoding a non-bytes object would raise, modelled by `decodeErr`). -/
def readLeafEntry (subsubkey : String) (d : H5Data) : ReadVal :=
  if subsubkey = "units" then
    match d with
    | .bstr s => .str s
    | _ => .decodeErr
  else
    match d with
    | .scalar x => .num x
    | .arr xs => .arr xs
    | .bstr s => .raw s
    | .bstrArr _ => .decodeErr
    | .nullDs => .nullV

/-- A top-level value as the reader returns it. -/
inductive ReadTop
  | dict (g : List (String × List (String × ReadVal)))
  | strList (ss : List String)
deriving DecidableEq

/-- The subgroup body of a read non-status group. -/
def subOf : H5Group → List (String × List (String × H5Data))
  | .sub g => g
  | .ds _ _ => []

/-- Reading `f[key]['solve_status'][()]` and decoding each element. -/
def readStatusGroup : H5Group → List String
  | .ds n d =>
    if n = "solve_status" then
      match d with
      | .bstrArr ss => ss
      | _ => []
    else []
  | .sub _ => []

/-- `_read_output_h5`: reconstruct the nested dictionary, decoding unit
strings and the status list. -/
def readOutputH5 (f : H5File) : List (String × ReadTop) :=
  f.map (fun kg =>
    if kg.1 ≠ "solve_status" then
      (kg.1, ReadTop.dict ((subOf kg.2).map (fun sk =>
        (sk.1, sk.2.map (fun ssk => (ssk.1, readLeafEntry ssk.1 ssk.2))))))
    else
      (kg.1, ReadTop.strList (readStatusGroup kg.2)))

/-- What one leaf entry becomes after a write/read round trip
(characterization). -/
def h5RoundTripLeaf (subsubkey : String) (v : LeafVal) : ReadVal :=
  readLeafEntry subsubkey (writeLeafEntry subsubkey v)

theorem h5RoundTripLeaf_value (xs : List RVal) :
    h5RoundTripLeaf "value" (.numArr xs) = .arr xs := by
  rw [h5RoundTripLeaf, writeLeafEntry,
    if_neg (fun h => absurd h.1 (by simp)), if_neg (fun h => absurd h.1 (by simp))]
  rw [readLeafEntry, if_neg (by simp)]

theorem h5RoundTripLeaf_units (u : String) :
    h5RoundTripLeaf "units" (.str u) = .str u := by
  rw [h5RoundTripLeaf, writeLeafEntry,
    if_neg (fun h => absurd h.1 (by simp)), if_neg (fun h => absurd h.1 (by simp))]
  rw [readLeafEntry, if_pos rfl]

/-- Reading back a written file is the per-entry leaf round trip applied in
place, with keys untouched and the status list recovered verbatim. -/
theorem readOutputH5_writeOutputToH5 (d : OutputDict) :
    readOutputH5 (writeOutputToH5 d) =
      d.map (fun kv =>
        if kv.1 ≠ "solve_status" then
          (kv.1, ReadTop.dict ((groupOf kv.2).map (fun sk =>
            (sk.1, sk.2.map (fun ssk => (ssk.1, h5RoundTripLeaf ssk.1 ssk.2))))))
        else
          (kv.1, ReadTop.strList (statusOf kv.2))) := by
  rw [readOutputH5, writeOutputToH5, List.map_map]
  apply List.map_congr_left
  intro kv _
  by_cases hk : kv.1 = "solve_status"
  · simp [hk, readStatusGroup]
  · simp [hk, subOf, List.map_map, Function.comp_def, h5RoundTripLeaf]

/-- Claim C8: writing the hierarchical artifact and reading it back yields a
structurally identical skeleton: identical key lists at the top level and
below, every leaf's value array recovered element-for-element, unit strings
recovered identically (decoded from their stored byte encoding), and the
status string list recovered identically. -/
theorem h5_write_read_roundtrip (d : OutputDict) :
    (readOutputH5 (writeOutputToH5 d)).map Prod.fst = d.map Prod.fst ∧
    (∀ ss : List String, ("solve_status", PyTop.strList ss) ∈ d →
      ("solve_status", ReadTop.strList ss) ∈ readOutputH5 (writeOutputToH5 d)) ∧
    (∀ (k : String) (g : GroupDict), k ≠ "solve_status" → (k, PyTop.dict g) ∈ d →
      ∃ g', (k, ReadTop.dict g') ∈ readOutputH5 (writeOutputToH5 d) ∧
        g'.map Prod.fst = g.map Prod.fst ∧
        ∀ sk ∈ g, ∃ leaf', (sk.1, leaf') ∈ g' ∧
          leaf'.map Prod.fst = sk.2.map Prod.fst ∧
          (∀ xs : List RVal, ("value", LeafVal.numArr xs) ∈ sk.2 →
            ("value", ReadVal.arr xs) ∈ leaf') ∧
          (∀ u : String, ("units", LeafVal.str u) ∈ sk.2 →
            ("units", ReadVal.str u) ∈ leaf')) := by
  rw [readOutputH5_writeOutputToH5]
  refine ⟨?_, ?_, ?_⟩
  · rw [List.map_map]
    apply List.map_congr_left
    intro kv _
    by_cases hk : kv.1 = "solve_status"
    · simp [hk]
    · simp [hk]
  · intro ss hmem
    have h2 := List.mem_map_of_mem (fun kv : String × PyTop =>
      if kv.1 ≠ "solve_status" then
        (kv.1, ReadTop.dict ((groupOf kv.2).map (fun sk =>
          (sk.1, sk.2.map (fun ssk => (ssk.1, h5RoundTripLeaf ssk.1 ssk.2))))))
      else (kv.1, ReadTop.strList (statusOf kv.2))) hmem
    simpa [statusOf] using h2
  · intro k g hk hmem
    refine ⟨g.map (fun sk =>
      (sk.1, sk.2.map (fun ssk => (ssk.1, h5RoundTripLeaf ssk.1 ssk.2)))), ?_, ?_, ?_⟩
    · have h2 := List.mem_map_of_mem (fun kv : String × PyTop =>
        if kv.1 ≠ "solve_status" then
          (kv.1, ReadTop.dict ((groupOf kv.2).map (fun sk =>
            (sk.1, sk.2.map (fun ssk => (ssk.1, h5RoundTripLeaf ssk.1 ssk.2))))))
        else (kv.1, ReadTop.strList (statusOf kv.2))) hmem
      simpa [hk, groupOf] using h2
    · rw [List.map_map]
      apply List.map_congr_left
      intro sk _
      rfl
    · intro sk hsk
      refine ⟨sk.2.map (fun ssk => (ssk.1, h5RoundTripLeaf ssk.1 ssk.2)), ?_, ?_, ?_, ?_⟩
      · exact List.mem_map_of_mem _ hsk
      · rw [List.map_map]
        apply List.map_congr_left
        intro ssk _
        rfl
      · intro xs hxs
        have h3 := List.mem_map_of_mem
          (fun ssk : String × LeafVal => (ssk.1, h5RoundTripLeaf ssk.1 ssk.2)) hxs
        simpa [h5RoundTripLeaf_value] using h3
      · intro u hu
        have h3 := List.mem_map_of_mem
          (fun ssk : String × LeafVal => (ssk.1, h5RoundTripLeaf ssk.1 ssk.2)) hu
        simpa [h5RoundTripLeaf_units] using h3

/-- Witness for Claim C8: a one-group dictionary with a value array, a `None`
lower bound, a unit string, and a two-element status list. -/
theorem h5_write_read_roundtrip_witness :
    ("solve_status", ReadTop.strList ["optimal", "infeasible"]) ∈
      readOutputH5 (writeOutputToH5
        [("outputs", PyTop.dict
            [("fs.x", [("value", LeafVal.numArr [some 1, none]),
                       ("lower bound", LeafVal.noneV),
                       ("units", LeafVal.str "m")])]),
         ("solve_status", PyTop.strList ["optimal", "infeasible"])]) ∧
    ∃ g', ("outputs", ReadTop.dict g') ∈
        readOutputH5 (writeOutputToH5
          [("outputs", PyTop.dict
              [("fs.x", [("value", LeafVal.numArr [some 1, none]),
                         ("lower bound", LeafVal.noneV),
                         ("units", LeafVal.str "m")])]),
           ("solve_status", PyTop.strList ["optimal", "infeasible"])]) ∧
      g'.map Prod.fst =
        [("fs.x", [("value", LeafVal.numArr [some 1, none]),
                   ("lower bound", LeafVal.noneV),
                   ("units", LeafVal.str "m")])].map Prod.fst ∧
      ∀ sk ∈ [("fs.x", [("value", LeafVal.numArr [some 1, none]),
                        ("lower bound", LeafVal.noneV),
                        ("units", LeafVal.str "m")])], ∃ leaf', (sk.1, leaf') ∈ g' ∧
        leaf'.map Prod.fst = sk.2.map Prod.fst ∧
        (∀ xs : List RVal, ("value", LeafVal.numArr xs) ∈ sk.2 →
          ("value", ReadVal.arr xs) ∈ leaf') ∧
        (∀ u : String, ("units", LeafVal.str u) ∈ sk.2 →
          ("units", ReadVal.str u) ∈ leaf') :=
  ⟨(h5_write_read_roundtrip _).2.1 ["optimal", "infeasible"] (by simp),
   (h5_write_read_roundtrip _).2.2 "outputs" _ (by simp) (by simp)⟩

end ParameterSweep
